import Mathlib

/-!
Verification development for the `readabilityrs` repository.

The Rust source operates on strings (`&str` / `String`) with the `regex`
crate and on parsed HTML documents via the `scraper` crate.  The shallow
embedding below models Rust strings as `String` / `List Char`:

* Each concrete regular expression used by `src/post_processor.rs` is
  translated into a dedicated scanning function that reproduces the
  leftmost, lazy (respectively greedy, where the pattern is greedy)
  matching behaviour of the `regex` crate on that pattern, and
  `Regex::replace_all(_, "")` is modelled by `scanReplace`, which removes
  successive leftmost non-overlapping matches in a single left-to-right
  pass (exactly the `replace_all` semantics; none of the patterns can
  match the empty string).
* Rust byte lengths / byte indices are modelled as character counts and
  character indices; every concrete input used in a theorem below is
  ASCII, where the two coincide.
* `f64` scores and ratios are modelled over `ℚ`; `f64::sqrt` is taken as
  an abstract parameter `sq : Nat → ℚ` where needed.  At every concrete
  input appearing in a theorem the modelled arithmetic agrees exactly
  with the IEEE-754 evaluation in the source.
* The HTML parsing performed by the external `scraper` crate
  (`Html::parse_fragment`, `Html::parse_document`, selectors) is not part
  of this repository; functions that consume a parsed document take the
  relevant parse result (the selected elements, in document order) as an
  explicit argument.
-/

/-! ## Character classes used by the regular expressions -/

/-- Model of the regex character class `\s` (whitespace), restricted to the
ASCII whitespace characters; the `regex` crate's full Unicode class also
holds some non-ASCII code points, which no input below contains. -/
def wsRe (c : Char) : Bool :=
  c == ' ' || c == '\t' || c == '\n' || c == '\r' || c == '\x0b' || c == '\x0c'

/-- Model of the regex word-character class `\w` (used for `\b` boundaries),
restricted to ASCII. -/
def wordChar (c : Char) : Bool :=
  c.isAlpha || c.isDigit || c == '_'

/-! ## Basic string-search helpers (models of Rust `str` operations) -/

/-- Does `hay` start with `needle` (exact, case-sensitive)?  Model of the
anchored form of Rust `str::starts_with`. -/
def startsWith : List Char → List Char → Bool
  | [], _ => true
  | _ :: _, [] => false
  | n :: ns, h :: hs => (n == h) && startsWith ns hs

/-- Does `hay` start with `needle` case-insensitively?  `needle` is given in
lowercase; model of anchored matching under the regex `(?i)` flag. -/
def startsCI : List Char → List Char → Bool
  | [], _ => true
  | _ :: _, [] => false
  | n :: ns, h :: hs => (h.toLower == n) && startsCI ns hs

/-- Index of the first occurrence of `needle` in `hay` (`ci` selects
case-insensitive matching).  With `ci := false` this is a model of Rust
`str::find`. -/
def findSub (ci : Bool) (needle : List Char) : List Char → Option Nat
  | [] => if needle.isEmpty then some 0 else none
  | c :: cs =>
    if (if ci then startsCI needle (c :: cs) else startsWith needle (c :: cs)) then
      some 0
    else
      (findSub ci needle cs).map (· + 1)

/-- Does `hay` contain `needle` as a contiguous substring (case-sensitive)?
Model of Rust `str::contains`. -/
def containsSub (hay needle : List Char) : Bool :=
  (findSub false needle hay).isSome

/-- Index of the first character of `l` satisfying `p`. -/
def findCharIdx (p : Char → Bool) : List Char → Option Nat
  | [] => none
  | c :: cs => if p c then some 0 else (findCharIdx p cs).map (· + 1)

/-- Remove `len` characters starting at position `pos`.  Model of the string
splice `result.push_str(&html[..pos]); result.push_str(&html[pos + n..])` in
`remove_title_from_content`. -/
def spliceAt (l : List Char) (pos len : Nat) : List Char :=
  l.take pos ++ l.drop (pos + len)

/-! ## `Regex::replace_all(_, "")`

`scanReplaceAux try fuel s` scans `s` left to right; `try t = some m` means
the pattern has a (leftmost-preferred) match of length `m ≥ 1` at the head
of `t`.  A match is deleted (the replacement is always the empty string in
the source) and scanning resumes immediately after it, so matches are the
successive non-overlapping leftmost matches — the `replace_all` semantics.
The fuel argument (instantiated with the input length, which always
suffices because every step consumes at least one character) keeps the
recursion structural so that terms reduce inside the kernel. -/
def scanReplaceAux (tryFn : List Char → Option Nat) : Nat → List Char → List Char
  | _, [] => []
  | 0, s => s
  | fuel + 1, c :: cs =>
    match tryFn (c :: cs) with
    | some m => scanReplaceAux tryFn fuel (cs.drop (m - 1))
    | none => c :: scanReplaceAux tryFn fuel cs

/-- One full `replace_all` pass of the pattern recognised by `tryFn`. -/
def scanReplace (tryFn : List Char → Option Nat) (s : List Char) : List Char :=
  scanReplaceAux tryFn s.length s

/-! ## The empty-paragraph pattern and `remove_empty_paragraphs` -/

/-- Match of the regex `<p[^>]*?>\s*</p>` at the head of the input
(case-sensitive, no word boundary after `p`, exactly as in the source):
literal `<p`, lazily up to the first `>`, greedy whitespace, literal
`</p>`.  Returns the total match length. -/
def tryEmptyP (s : List Char) : Option Nat :=
  if startsWith ['<', 'p'] s then
    let rest := s.drop 2
    match findCharIdx (· == '>') rest with
    | none => none
    | some j =>
      let after := rest.drop (j + 1)
      let w := (after.takeWhile wsRe).length
      if startsWith ['<', '/', 'p', '>'] (after.drop w) then
        some (2 + j + 1 + w + 4)
      else none
  else none

/-- One `EMPTY_P_REGEX.replace_all(&html, "")` pass from
`remove_empty_paragraphs`. -/
def emptyPReplaceAll (s : List Char) : List Char :=
  scanReplace tryEmptyP s

/-- The fixed-point loop body of `remove_empty_paragraphs`: repeat the
`replace_all` pass until the string no longer changes.  The fuel
`s.length + 1` always suffices since every productive iteration strictly
shrinks the string (see `scanReplaceAux_eq_or_lt`). -/
def removeEmptyLoopAux : Nat → List Char → List Char
  | 0, s => s
  | fuel + 1, s =>
    let new := emptyPReplaceAll s
    if new = s then s else removeEmptyLoopAux fuel new

/-- Model of `remove_empty_paragraphs` from `src/post_processor.rs`. -/
def removeEmptyParagraphsL (s : List Char) : List Char :=
  removeEmptyLoopAux (s.length + 1) s

/-- String-level wrapper for `remove_empty_paragraphs`. -/
def remove_empty_paragraphs (s : String) : String :=
  ⟨removeEmptyParagraphsL s.data⟩

/-! ## Structural lemmas about `replace_all` and the fixed-point loop -/

theorem scanReplaceAux_length_le (tryFn : List Char → Option Nat) :
    ∀ (fuel : Nat) (s : List Char), (scanReplaceAux tryFn fuel s).length ≤ s.length := by
  intro fuel
  induction fuel with
  | zero =>
    intro s
    cases s with
    | nil => simp [scanReplaceAux]
    | cons c cs => simp [scanReplaceAux]
  | succ n ih =>
    intro s
    cases s with
    | nil => simp [scanReplaceAux]
    | cons c cs =>
      simp only [scanReplaceAux]
      cases h : tryFn (c :: cs) with
      | some m =>
        simp only [h]
        calc (scanReplaceAux tryFn n (cs.drop (m - 1))).length
            ≤ (cs.drop (m - 1)).length := ih _
          _ ≤ cs.length := by simp [List.length_drop]
          _ ≤ (c :: cs).length := by simp
      | none =>
        simp only [h, List.length_cons]
        exact Nat.succ_le_succ (ih cs)

theorem scanReplaceAux_eq_or_lt (tryFn : List Char → Option Nat) :
    ∀ (fuel : Nat) (s : List Char),
      scanReplaceAux tryFn fuel s = s ∨ (scanReplaceAux tryFn fuel s).length < s.length := by
  intro fuel
  induction fuel with
  | zero =>
    intro s
    cases s with
    | nil => left; simp [scanReplaceAux]
    | cons c cs => left; simp [scanReplaceAux]
  | succ n ih =>
    intro s
    cases s with
    | nil => left; simp [scanReplaceAux]
    | cons c cs =>
      simp only [scanReplaceAux]
      cases h : tryFn (c :: cs) with
      | some m =>
        right
        simp only [h]
        calc (scanReplaceAux tryFn n (cs.drop (m - 1))).length
            ≤ (cs.drop (m - 1)).length := scanReplaceAux_length_le tryFn n _
          _ ≤ cs.length := by simp [List.length_drop]
          _ < (c :: cs).length := by simp
      | none =>
        simp only [h]
        rcases ih cs with heq | hlt
        · left; rw [heq]
        · right; simpa using Nat.succ_lt_succ hlt

theorem emptyPReplaceAll_eq_or_lt (s : List Char) :
    emptyPReplaceAll s = s ∨ (emptyPReplaceAll s).length < s.length :=
  scanReplaceAux_eq_or_lt tryEmptyP s.length s

/-- The loop result is a true fixed point of the `replace_all` pass, for any
sufficient fuel. -/
theorem removeEmptyLoopAux_fix :
    ∀ (fuel : Nat) (s : List Char), s.length < fuel →
      emptyPReplaceAll (removeEmptyLoopAux fuel s) = removeEmptyLoopAux fuel s := by
  intro fuel
  induction fuel with
  | zero => intro s h; exact absurd h (Nat.not_lt_zero _)
  | succ n ih =>
    intro s h
    simp only [removeEmptyLoopAux]
    by_cases hfix : emptyPReplaceAll s = s
    · simp [hfix]
    · simp only [hfix, if_neg hfix]
      apply ih
      rcases emptyPReplaceAll_eq_or_lt s with heq | hlt
      · exact absurd heq hfix
      · exact Nat.lt_of_lt_of_le hlt (Nat.lt_succ_iff.mp h)

theorem removeEmptyParagraphsL_fix (s : List Char) :
    emptyPReplaceAll (removeEmptyParagraphsL s) = removeEmptyParagraphsL s :=
  removeEmptyLoopAux_fix (s.length + 1) s (Nat.lt_succ_self _)

/-- **C5** — the empty-paragraph removal step of the cleaning pipeline is
idempotent: for every string `h`,
`remove_empty_paragraphs (remove_empty_paragraphs h) = remove_empty_paragraphs h`.
Re-applying the step to already-cleaned content removes nothing further,
because the loop exits exactly when one `replace_all` pass leaves the
string unchanged, so its result is a fixed point of the pass. -/
theorem c5_remove_empty_paragraphs_idempotent (h : String) :
    remove_empty_paragraphs (remove_empty_paragraphs h) = remove_empty_paragraphs h := by
  unfold remove_empty_paragraphs
  apply congrArg String.mk
  have key : ∀ r : List Char, emptyPReplaceAll r = r → removeEmptyParagraphsL r = r := by
    intro r hfix
    unfold removeEmptyParagraphsL
    simp only [removeEmptyLoopAux]
    simp [hfix]
  exact key _ (removeEmptyParagraphsL_fix h.data)

/-- **C9** — the fixed-point loop inside `remove_empty_paragraphs`
terminates for every input: each `replace_all` iteration either leaves the
string unchanged (exiting the loop) or strictly decreases its length, a
well-founded decreasing measure; consequently the loop result really is a
fixed point of the iterated replacement. -/
theorem c9_empty_paragraph_loop_terminates (s : List Char) :
    (emptyPReplaceAll s = s ∨ (emptyPReplaceAll s).length < s.length) ∧
      emptyPReplaceAll (removeEmptyParagraphsL s) = removeEmptyParagraphsL s :=
  ⟨emptyPReplaceAll_eq_or_lt s, removeEmptyParagraphsL_fix s⟩

/-! ## The element-removal patterns of `prep_article`

Each Rust pattern of `src/post_processor.rs` becomes one `try` function
returning the length of the (leftmost-preferred) match anchored at the
head of the input, or `none`. -/

/-- Match of `(?is)<TAG\b[^>]*?>.*?</TAG>` (and, when `hasVoid` is true, of
the second alternative `<TAG\b[^>]*?/?>` used for `embed`, `input` and
`link`) at the head of the input: case-insensitive literal `<TAG`, a
non-word character after the tag name (`\b`), lazily up to the first `>`
closing the open tag, then lazily up to the first case-insensitive
`</TAG>`; when no closing tag exists the void alternative matches just the
open tag.  `tag` is given in lowercase. -/
def tryTagElem (tag : List Char) (hasVoid : Bool) (s : List Char) : Option Nat :=
  if startsCI ('<' :: tag) s then
    let rest := s.drop (tag.length + 1)
    if (match rest with | [] => true | c :: _ => !wordChar c) then
      match findCharIdx (· == '>') rest with
      | none => none
      | some j =>
        let openLen := tag.length + 1 + j + 1
        let afterOpen := rest.drop (j + 1)
        let closeTag := '<' :: '/' :: (tag ++ ['>'])
        match findSub true closeTag afterOpen with
        | some k => some (openLen + k + closeTag.length)
        | none => if hasVoid then some openLen else none
    else none
  else none

/-- Attempted continuation of `ATTR="[^"]*?KW[^"]*?"[^>]*?>.*?</TAG>` given
that `ATTR="` was found at offset `p` of `rest` (the text after `<TAG`):
the quoted value runs to the next `"` (which must exist), must contain the
keyword case-insensitively, then lazily up to the first `>` and the first
case-insensitive `</TAG>`.  Returns the total match length counted from
the leading `<`. -/
def tryAttrContinue (tag attrLit kw rest : List Char) (p : Nat) : Option Nat :=
  let vstart := p + attrLit.length
  let tail := rest.drop vstart
  let value := tail.takeWhile (· != '"')
  if value.length < tail.length then
    if (findSub true kw value).isSome then
      let a := vstart + value.length + 1
      let afterQ := rest.drop a
      match findCharIdx (· == '>') afterQ with
      | none => none
      | some j2 =>
        let afterGt := afterQ.drop (j2 + 1)
        match findSub true ('<' :: '/' :: (tag ++ ['>'])) afterGt with
        | none => none
        | some k => some (1 + tag.length + a + j2 + 1 + k + (tag.length + 3))
    else none
  else none

/-- Backtracking over the lazy `[^>]*?ATTR="` positions, tried in ascending
order (`[^>]*?` is lazy), all of which lie no further than the first `>`
after the tag name. -/
def attrCandLoop (tag attrLit kw rest : List Char) (g : Nat) : Nat → Nat → Option Nat
  | _, 0 => none
  | p, b + 1 =>
    if p > g then none
    else if startsCI attrLit (rest.drop p) then
      match tryAttrContinue tag attrLit kw rest p with
      | some len => some len
      | none => attrCandLoop tag attrLit kw rest g (p + 1) b
    else attrCandLoop tag attrLit kw rest g (p + 1) b

/-- Match of `(?is)<TAG\b[^>]*?ATTR="[^"]*?KW[^"]*?"[^>]*?>.*?</TAG>` at the
head of the input — the share/social and navigation class/id patterns of
`remove_share_elements` and `remove_navigation_elements`.  `tag`, `kw` and
`attrLit` (the literal `class="` or `id="`) are given in lowercase. -/
def tryAttrKwTag (tag attrLit kw : List Char) (s : List Char) : Option Nat :=
  if startsCI ('<' :: tag) s then
    let rest := s.drop (tag.length + 1)
    if (match rest with | [] => true | c :: _ => !wordChar c) then
      let g := (rest.takeWhile (· != '>')).length
      attrCandLoop tag attrLit kw rest g 0 (g + 2)
    else none
  else none

/-- The keyword alternation `navbar|nav|menu|sidebar|widget|header` of
`WRAPPER_REGEX` in `unwrap_nav_wrappers`. -/
def wrapperKws : List (List Char) :=
  ["navbar".data, "nav".data, "menu".data, "sidebar".data, "widget".data, "header".data]

/-- Attempted continuation of the wrapper pattern once `class="` is fixed at
offset `p` of `rest`: the quoted value (to the next `"`, which must exist)
must contain one of the wrapper keywords, then greedily to the first `>`
and lazily to the first case-insensitive `</div>`.  The greedy inner
`[^"]*` pieces do not change the span of the match, since every keyword
occurrence lies before the same closing quote. -/
def tryWrapperContinue (rest : List Char) (p : Nat) : Option Nat :=
  let vstart := p + 7
  let tail := rest.drop vstart
  let value := tail.takeWhile (· != '"')
  if value.length < tail.length then
    if wrapperKws.any (fun kw => (findSub true kw value).isSome) then
      let a := vstart + value.length + 1
      let afterQ := rest.drop a
      match findCharIdx (· == '>') afterQ with
      | none => none
      | some j2 =>
        let afterGt := afterQ.drop (j2 + 1)
        match findSub true "</div>".data afterGt with
        | none => none
        | some k => some (4 + a + j2 + 1 + k + 6)
    else none
  else none

/-- Backtracking over the greedy `[^>]+class="` positions of the wrapper
pattern, tried in descending order (`[^>]+` is greedy and requires at
least one character, so positions run from the first `>` down to 1). -/
def wrapperCandLoop (rest : List Char) : Nat → Nat → Option Nat
  | _, 0 => none
  | p, b + 1 =>
    if p < 1 then none
    else if startsCI "class=\"".data (rest.drop p) then
      match tryWrapperContinue rest p with
      | some len => some len
      | none => wrapperCandLoop rest (p - 1) b
    else wrapperCandLoop rest (p - 1) b

/-- Match of the `WRAPPER_REGEX`
`(?is)<div[^>]+class="[^"]*(?:navbar|nav|menu|sidebar|widget|header)[^"]*"[^>]*>.*?</div>`
at the head of the input (note: no `\b` after `div`, and at least one
character before `class="`). -/
def tryNavWrapper (s : List Char) : Option Nat :=
  if startsCI "<div".data s then
    let rest := s.drop 4
    let g := (rest.takeWhile (· != '>')).length
    wrapperCandLoop rest g (g + 1)
  else none

/-! ## The cleaning-pipeline functions of `src/post_processor.rs` -/

/-- Model of `unwrap_nav_wrappers`. -/
def unwrapNavWrappersL (s : List Char) : List Char :=
  scanReplace tryNavWrapper s

/-- The `(tag, pattern-has-void-alternative)` list of
`remove_unwanted_elements`, in source order. -/
def unwantedTags : List (List Char × Bool) :=
  [("form".data, false), ("fieldset".data, false), ("footer".data, false),
   ("aside".data, false), ("object".data, false), ("embed".data, true),
   ("iframe".data, false), ("input".data, true), ("textarea".data, false),
   ("select".data, false), ("button".data, false), ("link".data, true)]

/-- Model of `remove_unwanted_elements`: one `replace_all` pass per tag, in
source order. -/
def removeUnwantedElementsL (s : List Char) : List Char :=
  unwantedTags.foldl (fun acc tb => scanReplace (tryTagElem tb.1 tb.2) acc) s

/-- Model of `remove_share_elements`: for each tag and keyword, one
`replace_all` pass on the class pattern then one on the id pattern. -/
def removeShareElementsL (s : List Char) : List Char :=
  (["div".data, "span".data, "aside".data, "section".data]).foldl
    (fun acc tag =>
      (["share".data, "social".data, "sharedaddy".data]).foldl
        (fun acc2 kw =>
          scanReplace (tryAttrKwTag tag "id=\"".data kw)
            (scanReplace (tryAttrKwTag tag "class=\"".data kw) acc2))
        acc)
    s

/-- Model of `remove_navigation_elements`: the `<nav>` element pattern, then
for each tag and keyword the class pattern followed by the id pattern. -/
def removeNavigationElementsL (s : List Char) : List Char :=
  let s1 := scanReplace (tryTagElem "nav".data false) s
  (["div".data, "section".data, "ul".data, "ol".data]).foldl
    (fun acc tag =>
      (["nav".data, "navbar".data, "menu".data, "breadcrumbs".data]).foldl
        (fun acc2 kw =>
          scanReplace (tryAttrKwTag tag "id=\"".data kw)
            (scanReplace (tryAttrKwTag tag "class=\"".data kw) acc2))
        acc)
    s1

/-- Model of `prep_article`: unwrap nav wrappers, remove unwanted elements,
remove share widgets, remove navigation lists, remove empty paragraphs. -/
def prepArticleL (s : List Char) : List Char :=
  removeEmptyParagraphsL
    (removeNavigationElementsL
      (removeShareElementsL
        (removeUnwantedElementsL
          (unwrapNavWrappersL s))))

/-- String-level wrapper for `prep_article`. -/
def prep_article (s : String) : String :=
  ⟨prepArticleL s.data⟩

set_option maxRecDepth 20000 in
/-- **C2** — refuted at the failing input `<form>x`: the form pattern
`(?is)<form\b[^>]*?>.*?</form>` requires a closing `</form>`, so an
unclosed form survives the whole cleaning pipeline unchanged, and the
output of `prep_article` still contains a form element, contrary to the
claim (and to the doc comment of `remove_unwanted_elements`, which states
that forms are removed). -/
theorem c2_prep_article_keeps_unclosed_form :
    prep_article "<form>x" = "<form>x" ∧
      containsSub (prep_article "<form>x").data "<form".data = true := by
  constructor
  · rfl
  · rfl

set_option maxRecDepth 20000 in
/-- **C6** — refuted at the failing input `<p><span></span></p>`: this
paragraph has no text and no embedded media, yet `remove_empty_paragraphs`
leaves it unchanged, because the regex `<p[^>]*?>\s*</p>` only matches
paragraphs whose entire content is whitespace and performs no media test
at all — contrary to the claim and to the function's own doc comment
("paragraphs with no text and no media elements"). -/
theorem c6_empty_paragraph_with_empty_span_survives :
    remove_empty_paragraphs "<p><span></span></p>" = "<p><span></span></p>" ∧
      containsSub (remove_empty_paragraphs "<p><span></span></p>").data "<p>".data = true := by
  constructor
  · rfl
  · rfl

/-! ## Title normalisation and matching (`normalize_text`, `titles_match`) -/

/-- Helper for `collapseWs`: `inWs` records whether the previous character
belonged to the whitespace run currently being collapsed. -/
def collapseWsAux : Bool → List Char → List Char
  | _, [] => []
  | inWs, c :: cs =>
    if wsRe c then
      if inWs then collapseWsAux true cs else ' ' :: collapseWsAux true cs
    else c :: collapseWsAux false cs

/-- Collapse every maximal run of whitespace to a single space: the
`WHITESPACE_REGEX.replace_all(_, " ")` step of `normalize_text`
(the regex `\s+` — each maximal whitespace run is one match, replaced by a
single space). -/
def collapseWs (s : List Char) : List Char :=
  collapseWsAux false s

/-- Trim leading and trailing whitespace: model of Rust `str::trim`. -/
def trimL (s : List Char) : List Char :=
  ((s.dropWhile wsRe).reverse.dropWhile wsRe).reverse

/-- Model of `normalize_text` from `src/post_processor.rs`: trim, collapse
whitespace runs to single spaces, lowercase.  (Lowercasing is modelled per
character with `Char.toLower`, which agrees with Rust `to_lowercase` on
ASCII; all concrete inputs below are ASCII.) -/
def normalize_text (s : List Char) : List Char :=
  (collapseWs (trimL s)).map Char.toLower

/-- The length ratio `len1.min(len2) as f64 / len1.max(len2) as f64`
computed by `titles_match`, modelled over `ℚ` (the value `0.8` it is
compared against and all ratios appearing in concrete inputs below are
exactly representable in both models). -/
def ratioOf (t1 t2 : List Char) : ℚ :=
  ((min t1.length t2.length : Nat) : ℚ) / ((max t1.length t2.length : Nat) : ℚ)

/-- Model of `titles_match` from `src/post_processor.rs`: exact equality,
else — when both lengths are positive — a strict `ratio > 0.8` test
combined with containment in either direction. -/
def titles_match (t1 t2 : List Char) : Bool :=
  if t1 = t2 then true
  else if 0 < t1.length && 0 < t2.length then
    decide (ratioOf t1 t2 > 4 / 5) && (containsSub t1 t2 || containsSub t2 t1)
  else false

/-! ## `remove_title_from_content`

The function first parses the fragment with the external `scraper` crate
and iterates over the `h1, h2` elements in document order; for each
element it compares normalised text and, on a match, looks up the
element's re-serialised outer HTML (`element.html()`) in the **raw input
string** with `str::find`, removing the first occurrence when found and
moving on to the next heading when not.  The external parse step is
modelled by passing the selected headings explicitly: each `Heading`
carries the element's collected text (`element.text()`) and its
re-serialised outer HTML (`element.html()`), listed in document order. -/

/-- One parsed `h1`/`h2` element as seen by `remove_title_from_content`:
`text` is `element.text().collect()`, `outer` is `element.html()` (the
serialisation produced by the parser, which lowercases tag names and
normalises attribute syntax — hence not always a substring of the raw
input). -/
structure Heading where
  text : String
  outer : String

/-- Does the heading's normalised text match the normalised title?  The
per-heading test of the loop in `remove_title_from_content`. -/
def headingMatches (nt : List Char) (h : Heading) : Bool :=
  titles_match nt (normalize_text h.text.data)

/-- The `for element in doc.select(..)` loop of `remove_title_from_content`:
on the first heading whose normalised text matches, look up its serialised
outer HTML in the raw input; splice it out when found, otherwise continue
with the next heading. -/
def removeTitleLoop (html nt : List Char) : List Heading → List Char
  | [] => html
  | h :: rest =>
    if headingMatches nt h then
      match findSub false h.outer.data html with
      | some pos => spliceAt html pos h.outer.data.length
      | none => removeTitleLoop html nt rest
    else removeTitleLoop html nt rest

/-- Model of `remove_title_from_content` from `src/post_processor.rs`; the
`headings` argument is the parse result (see `Heading`). -/
def remove_title_from_content (html : String) (headings : List Heading) (title : String) : String :=
  let nt := normalize_text title.data
  if nt = [] then html
  else ⟨removeTitleLoop html.data nt headings⟩

/-! ## C4: the title-matching predicate -/

/-- When either normalised title is empty the computed length ratio is `0`. -/
theorem ratioOf_eq_zero_of_len_zero (t1 t2 : List Char)
    (h : t1.length = 0 ∨ t2.length = 0) : ratioOf t1 t2 = 0 := by
  unfold ratioOf
  rcases h with h | h <;> rw [h] <;> simp

/-- **C4 counterexample** — at the concrete normalised titles `abcd` and
`abcda`, one is a substring of the other and the length ratio is exactly
`4/5 = 0.8` (exactly representable in `f64`, where `4.0 / 5.0` equals the
literal `0.8`), yet `titles_match` returns `false` because the source
compares with the strict `ratio > 0.8`; the claim's `ratio ≥ 0.8` would
make them match. -/
theorem c4_counterexample :
    titles_match "abcd".data "abcda".data = false ∧
      containsSub "abcda".data "abcd".data = true ∧
      ratioOf "abcd".data "abcda".data = 4 / 5 := by
  have hrat : ratioOf "abcd".data "abcda".data = 4 / 5 := by
    unfold ratioOf
    norm_num [show "abcd".data.length = 4 from rfl, show "abcda".data.length = 5 from rfl]
  refine ⟨?_, by decide, hrat⟩
  have hr : ¬(ratioOf "abcd".data "abcda".data > 4 / 5) := by
    rw [hrat]
    exact lt_irrefl _
  unfold titles_match
  rw [if_neg (show "abcd".data ≠ "abcda".data by decide)]
  rw [if_pos (show (decide (0 < "abcd".data.length) && decide (0 < "abcda".data.length)) = true
      by decide)]
  simp [decide_eq_false hr]

/-- **C4 (amended)** — `titles_match` treats two normalised titles as
matching if and only if they are exactly equal, or one is a substring of
the other and the length ratio of the shorter to the longer is **strictly
greater than** 0.8 (the positive-length guard of the source is implied:
a ratio above 4/5 forces both lengths positive). -/
theorem c4_titles_match_iff (t1 t2 : List Char) :
    titles_match t1 t2 = true ↔
      t1 = t2 ∨
        ((containsSub t1 t2 = true ∨ containsSub t2 t1 = true) ∧ ratioOf t1 t2 > 4 / 5) := by
  unfold titles_match
  by_cases heq : t1 = t2
  · simp [heq]
  · rw [if_neg heq]
    by_cases hpos : 0 < t1.length ∧ 0 < t2.length
    · rw [if_pos (show (decide (0 < t1.length) && decide (0 < t2.length)) = true by
        simp only [Bool.and_eq_true, decide_eq_true_eq]; exact hpos)]
      simp only [Bool.and_eq_true, Bool.or_eq_true, decide_eq_true_eq]
      constructor
      · intro h
        exact Or.inr ⟨h.2, h.1⟩
      · rintro (h | ⟨hc, hr⟩)
        · exact absurd h heq
        · exact ⟨hr, hc⟩
    · rw [if_neg (show ¬(decide (0 < t1.length) && decide (0 < t2.length)) = true by
        simp only [Bool.and_eq_true, decide_eq_true_eq]; exact hpos)]
      have hz : t1.length = 0 ∨ t2.length = 0 := by
        rcases Nat.eq_zero_or_pos t1.length with h | h
        · exact Or.inl h
        · rcases Nat.eq_zero_or_pos t2.length with h' | h'
          · exact Or.inr h'
          · exact absurd ⟨h, h'⟩ hpos
      have hrz : ratioOf t1 t2 = 0 := ratioOf_eq_zero_of_len_zero t1 t2 hz
      constructor
      · intro h; exact absurd h (by simp)
      · rintro (h | ⟨_, hr⟩)
        · exact absurd h heq
        · rw [hrz] at hr; norm_num at hr

/-! ## C1: behaviour of the title-removal loop -/

/-- The loop performs at most one splice: either the input is returned
unchanged, or exactly one occurrence of one matching heading's serialised
markup has been removed. -/
theorem removeTitleLoop_cases (html nt : List Char) (hs : List Heading) :
    removeTitleLoop html nt hs = html ∨
      ∃ h ∈ hs, ∃ pos, headingMatches nt h = true ∧
        findSub false h.outer.data html = some pos ∧
        removeTitleLoop html nt hs = spliceAt html pos h.outer.data.length := by
  induction hs with
  | nil => left; rfl
  | cons h rest ih =>
    cases hm : headingMatches nt h with
    | false =>
      simp only [removeTitleLoop, hm, Bool.false_eq_true, if_false]
      rcases ih with h0 | ⟨g, hg, pos, a, b, c⟩
      · left; exact h0
      · right; exact ⟨g, List.mem_cons_of_mem h hg, pos, a, b, c⟩
    | true =>
      simp only [removeTitleLoop, hm, if_true]
      cases hf : findSub false h.outer.data html with
      | some pos =>
        right
        exact ⟨h, List.mem_cons_self h rest, pos, hm, hf, rfl⟩
      | none =>
        rcases ih with h0 | ⟨g, hg, pos, a, b, c⟩
        · left; exact h0
        · right; exact ⟨g, List.mem_cons_of_mem h hg, pos, a, b, c⟩

/-- The heading whose markup gets spliced out is the first heading (in
document order) that both matches the title and whose serialised markup
occurs verbatim in the raw input. -/
theorem removeTitleLoop_first (html nt : List Char) :
    ∀ (pre : List Heading) (h : Heading) (post : List Heading) (pos : Nat),
      (∀ g ∈ pre, ¬(headingMatches nt g = true ∧
          (findSub false g.outer.data html).isSome = true)) →
      headingMatches nt h = true →
      findSub false h.outer.data html = some pos →
      removeTitleLoop html nt (pre ++ h :: post) = spliceAt html pos h.outer.data.length := by
  intro pre
  induction pre with
  | nil =>
    intro h post pos _ hm hf
    simp only [List.nil_append, removeTitleLoop, hm, if_true, hf]
  | cons g pre ih =>
    intro h post pos hpre hm hf
    have hg := hpre g (List.mem_cons_self g pre)
    cases hgm : headingMatches nt g with
    | false =>
      simp only [List.cons_append, removeTitleLoop, hgm, Bool.false_eq_true, if_false]
      exact ih h post pos (fun x hx => hpre x (List.mem_cons_of_mem g hx)) hm hf
    | true =>
      have hgf : findSub false g.outer.data html = none := by
        cases hff : findSub false g.outer.data html with
        | none => rfl
        | some p => exact absurd ⟨hgm, by rw [hff]; rfl⟩ hg
      simp only [List.cons_append, removeTitleLoop, hgm, if_true, hgf]
      exact ih h post pos (fun x hx => hpre x (List.mem_cons_of_mem g hx)) hm hf

/-- **C1 (amended)** — `remove_title_from_content` (i) returns the input
unchanged when the normalised title is empty, (ii) performs at most one
removal, namely of one occurrence of one matching heading's serialised
markup, and (iii) when the normalised title is nonempty and the heading
list decomposes as `pre ++ h :: post` where no heading of `pre` both
matches and has its serialisation occurring verbatim in the raw input,
while `h` matches and its serialisation first occurs at `pos`, then the
output is the input with that occurrence spliced out.  (The claim's
unconditional "removes exactly the first matching heading" fails: a
matching heading whose parser re-serialisation differs from its raw
source markup is skipped — see `c1_counterexample`.) -/
theorem c1_remove_title_amended (html : String) (hs : List Heading) (title : String) :
    (normalize_text title.data = [] → remove_title_from_content html hs title = html) ∧
    (remove_title_from_content html hs title = html ∨
      ∃ h ∈ hs, ∃ pos, headingMatches (normalize_text title.data) h = true ∧
        findSub false h.outer.data html.data = some pos ∧
        (remove_title_from_content html hs title).data =
          spliceAt html.data pos h.outer.data.length) ∧
    (∀ (pre : List Heading) (h : Heading) (post : List Heading) (pos : Nat),
      normalize_text title.data ≠ [] →
      hs = pre ++ h :: post →
      (∀ g ∈ pre, ¬(headingMatches (normalize_text title.data) g = true ∧
          (findSub false g.outer.data html.data).isSome = true)) →
      headingMatches (normalize_text title.data) h = true →
      findSub false h.outer.data html.data = some pos →
      (remove_title_from_content html hs title).data =
        spliceAt html.data pos h.outer.data.length) := by
  refine ⟨?_, ?_, ?_⟩
  · intro h0
    unfold remove_title_from_content
    simp [h0]
  · by_cases hnt : normalize_text title.data = []
    · left
      unfold remove_title_from_content
      simp [hnt]
    · have hfn : remove_title_from_content html hs title =
          ⟨removeTitleLoop html.data (normalize_text title.data) hs⟩ := by
        unfold remove_title_from_content
        simp [hnt]
      rcases removeTitleLoop_cases html.data (normalize_text title.data) hs with h0 | hex
      · left
        rw [hfn, h0]
      · right
        rcases hex with ⟨h, hmem, pos, a, b, c⟩
        exact ⟨h, hmem, pos, a, b, by rw [hfn]; exact c⟩
  · intro pre h post pos hnt heq hpre hm hf
    have hfn : remove_title_from_content html hs title =
        ⟨removeTitleLoop html.data (normalize_text title.data) hs⟩ := by
      unfold remove_title_from_content
      simp [hnt]
    rw [hfn, heq]
    exact removeTitleLoop_first html.data (normalize_text title.data) pre h post pos hpre hm hf

/-- **C1 witness** — on the well-behaved fragment
`<h1>My Title</h1><p>x</p>` with title `My Title`, the single matching
heading is found verbatim at position 0 and removed, leaving `<p>x</p>`. -/
theorem c1_remove_title_amended_witness :
    (remove_title_from_content "<h1>My Title</h1><p>x</p>"
        [⟨"My Title", "<h1>My Title</h1>"⟩] "My Title").data =
      spliceAt "<h1>My Title</h1><p>x</p>".data 0 "<h1>My Title</h1>".data.length :=
  (c1_remove_title_amended "<h1>My Title</h1><p>x</p>"
      [⟨"My Title", "<h1>My Title</h1>"⟩] "My Title").2.2
    [] ⟨"My Title", "<h1>My Title</h1>"⟩ [] 0
    (by decide) rfl (fun g hg => absurd hg (List.not_mem_nil g)) (by decide) (by decide)

set_option maxRecDepth 20000 in
/-- **C1 counterexample** — input `<H1>My Title</H1><h2>My Title</h2>` with
title `My Title`: the first heading in document order (`<H1>…`, parsed as
an `h1` element with text `My Title`) matches the title, but the parser
re-serialises it with a lowercased tag name as `<h1>My Title</h1>`, which
`str::find` does not locate in the raw input; the loop therefore moves on
and removes the **second** heading instead, leaving the first one intact
— contradicting the claim that the heading removed is exactly the first
matching heading in document order. -/
theorem c1_counterexample :
    headingMatches (normalize_text "My Title".data)
        ⟨"My Title", "<h1>My Title</h1>"⟩ = true ∧
      remove_title_from_content "<H1>My Title</H1><h2>My Title</h2>"
        [⟨"My Title", "<h1>My Title</h1>"⟩, ⟨"My Title", "<h2>My Title</h2>"⟩]
        "My Title" = "<H1>My Title</H1>" := by
  constructor
  · decide
  · decide

/-! ## `src/readerable.rs` — the quick readerable check

`is_probably_readerable` parses the document with the external `scraper`
crate and collects the `p, pre, article` elements; the model receives the
list of those elements' text contents (in document order) directly.  The
`f64` score is modelled over `ℚ` and `f64::sqrt` as an abstract function
`sq : Nat → ℚ` applied to the (non-negative) length difference. -/

/-- Model of `ReaderableOptions` from `src/readerable.rs`
(`min_content_length: usize`, `min_score: f64`). -/
structure ReaderableOptions where
  min_content_length : Nat
  min_score : ℚ

/-- The `Default` impl: `min_content_length: 140`, `min_score: 20.0`. -/
def ReaderableOptions.default : ReaderableOptions :=
  ⟨140, 20⟩

/-- The `for p in paragraphs` loop of `is_probably_readerable`: skip
elements whose trimmed text length is strictly below
`min_content_length`, otherwise add `sqrt(text_len - min_content_length)`
to the score and return `true` as soon as the score strictly exceeds
`min_score`. -/
def readerableLoop (sq : Nat → ℚ) (o : ReaderableOptions) : ℚ → List String → Bool
  | _, [] => false
  | score, t :: rest =>
    let text_len := (trimL t.data).length
    if text_len < o.min_content_length then readerableLoop sq o score rest
    else
      let score2 := score + sq (text_len - o.min_content_length)
      if o.min_score < score2 then true else readerableLoop sq o score2 rest

/-- Model of `is_probably_readerable` from `src/readerable.rs`; `texts` is
the list of text contents of the selected `p, pre, article` elements in
document order (the external parse result). -/
def is_probably_readerable (sq : Nat → ℚ) (texts : List String)
    (options : Option ReaderableOptions) : Bool :=
  if texts.isEmpty then false
  else readerableLoop sq (options.getD ReaderableOptions.default) 0 texts

/-- The scan described by the claim's own words (C3 as stated): an element
counts only when its trimmed text length **strictly exceeds**
`min_content_length`, and the score is checked only after such an
addition. -/
def readerableScanStrict (sq : Nat → ℚ) (o : ReaderableOptions) : ℚ → List String → Bool
  | _, [] => false
  | score, t :: rest =>
    let text_len := (trimL t.data).length
    if o.min_content_length < text_len then
      let score2 := score + sq (text_len - o.min_content_length)
      if o.min_score < score2 then true else readerableScanStrict sq o score2 rest
    else readerableScanStrict sq o score rest

/-- Top-level form of the claim-as-stated scan (C3's description). -/
def readerableSpecStrict (sq : Nat → ℚ) (texts : List String)
    (options : Option ReaderableOptions) : Bool :=
  readerableScanStrict sq (options.getD ReaderableOptions.default) 0 texts

/-- The empty string (used as the irrelevant `getD` default for in-range
list indexing). -/
def emptyStr : String :=
  ""

/-- Contribution of one element to the running score under the corrected
(`≥`) qualification threshold: `sqrt(len - min)` when the element
qualifies, `0` otherwise. -/
def elemScore (sq : Nat → ℚ) (o : ReaderableOptions) (t : String) : ℚ :=
  if o.min_content_length ≤ (trimL t.data).length then
    sq ((trimL t.data).length - o.min_content_length)
  else 0

/-- Does the element reach the content-length threshold (corrected, `≥`)? -/
def qualifies (o : ReaderableOptions) (t : String) : Bool :=
  decide (o.min_content_length ≤ (trimL t.data).length)

/-- The running score after the first `k` elements. -/
def runningScore (sq : Nat → ℚ) (o : ReaderableOptions) (texts : List String) (k : Nat) : ℚ :=
  ((texts.take k).map (elemScore sq o)).sum

/-- Declarative form of the amended C3 claim: some element qualifies and
the running score just after it strictly exceeds `min_score`. -/
def readerableSpecGE (sq : Nat → ℚ) (texts : List String)
    (options : Option ReaderableOptions) : Bool :=
  (List.range texts.length).any (fun i =>
    qualifies (options.getD ReaderableOptions.default) (texts.getD i emptyStr) &&
      decide ((options.getD ReaderableOptions.default).min_score <
        runningScore sq (options.getD ReaderableOptions.default) texts (i + 1)))

theorem runningScore_cons (sq : Nat → ℚ) (o : ReaderableOptions) (t : String)
    (rest : List String) (k : Nat) :
    runningScore sq o (t :: rest) (k + 1) = elemScore sq o t + runningScore sq o rest k := by
  unfold runningScore
  rw [List.take_succ_cons]
  simp

/-- The loop returns `true` exactly when some qualifying element pushes the
accumulated score (started at `s`) strictly past `min_score`. -/
theorem readerableLoop_iff (sq : Nat → ℚ) (o : ReaderableOptions) :
    ∀ (ts : List String) (s : ℚ),
      readerableLoop sq o s ts = true ↔
        ∃ i, i < ts.length ∧ qualifies o (ts.getD i emptyStr) = true ∧
          o.min_score < s + runningScore sq o ts (i + 1) := by
  intro ts
  induction ts with
  | nil =>
    intro s
    simp [readerableLoop]
  | cons t rest ih =>
    intro s
    by_cases hq : (trimL t.data).length < o.min_content_length
    · have hQ : qualifies o t = false := by
        unfold qualifies
        simp [Nat.not_le.mpr hq]
      have hes : elemScore sq o t = 0 := by
        unfold elemScore
        rw [if_neg (Nat.not_le.mpr hq)]
      have hL : readerableLoop sq o s (t :: rest) = readerableLoop sq o s rest := by
        simp only [readerableLoop]
        rw [if_pos hq]
      rw [hL, ih s]
      constructor
      · rintro ⟨i, hi, hqi, hsc⟩
        refine ⟨i + 1, Nat.succ_lt_succ hi, ?_, ?_⟩
        · rw [List.getD_cons_succ]
          exact hqi
        · rw [runningScore_cons, hes, zero_add]
          exact hsc
      · rintro ⟨i, hi, hqi, hsc⟩
        cases i with
        | zero =>
          rw [List.getD_cons_zero] at hqi
          rw [hQ] at hqi
          exact absurd hqi (by simp)
        | succ j =>
          refine ⟨j, Nat.lt_of_succ_lt_succ hi, ?_, ?_⟩
          · rw [List.getD_cons_succ] at hqi
            exact hqi
          · rw [runningScore_cons, hes, zero_add] at hsc
            exact hsc
    · have hle : o.min_content_length ≤ (trimL t.data).length := Nat.le_of_not_lt hq
      have hQ : qualifies o t = true := by
        unfold qualifies
        simp [hle]
      have hes : elemScore sq o t = sq ((trimL t.data).length - o.min_content_length) := by
        unfold elemScore
        rw [if_pos hle]
      by_cases hex : o.min_score < s + sq ((trimL t.data).length - o.min_content_length)
      · have hL : readerableLoop sq o s (t :: rest) = true := by
          simp only [readerableLoop]
          rw [if_neg hq, if_pos hex]
        rw [hL]
        constructor
        · intro _
          refine ⟨0, Nat.succ_pos _, ?_, ?_⟩
          · rw [List.getD_cons_zero]
            exact hQ
          · rw [runningScore_cons, hes]
            unfold runningScore
            simp only [List.take_zero, List.map_nil, List.sum_nil, add_zero]
            exact hex
        · intro _
          rfl
      · have hL : readerableLoop sq o s (t :: rest) =
            readerableLoop sq o (s + sq ((trimL t.data).length - o.min_content_length)) rest := by
          simp only [readerableLoop]
          rw [if_neg hq, if_neg hex]
        rw [hL, ih]
        constructor
        · rintro ⟨i, hi, hqi, hsc⟩
          refine ⟨i + 1, Nat.succ_lt_succ hi, ?_, ?_⟩
          · rw [List.getD_cons_succ]
            exact hqi
          · rw [runningScore_cons, hes, ← add_assoc]
            exact hsc
        · rintro ⟨i, hi, hqi, hsc⟩
          cases i with
          | zero =>
            rw [runningScore_cons, hes] at hsc
            unfold runningScore at hsc
            simp only [List.take_zero, List.map_nil, List.sum_nil, add_zero] at hsc
            exact absurd hsc hex
          | succ j =>
            refine ⟨j, Nat.lt_of_succ_lt_succ hi, ?_, ?_⟩
            · rw [List.getD_cons_succ] at hqi
              exact hqi
            · rw [runningScore_cons, hes, ← add_assoc] at hsc
              exact hsc

theorem boolEqOfIff {a b : Bool} (h : a = true ↔ b = true) : a = b := by
  cases a <;> cases b <;> simp_all

/-- **C3 (amended)** — `is_probably_readerable` scans the elements in
document order, adds `sqrt(trimmedTextLength - minContentLength)` for
each element whose trimmed text length is **at least**
`minContentLength` (elements exactly at the threshold contribute
`sqrt 0` and are also followed by a check), returns `true` exactly when
the running score strictly exceeds `minScore` just after one of these
qualifying elements, and `false` when the scan completes without that
happening (in particular, when no element reaches the threshold and the
score is never checked). -/
theorem c3_readerable_amended (sq : Nat → ℚ) (texts : List String)
    (options : Option ReaderableOptions) :
    is_probably_readerable sq texts options = readerableSpecGE sq texts options := by
  unfold is_probably_readerable readerableSpecGE
  by_cases he : texts.isEmpty
  · have hnil : texts = [] := by
      cases texts with
      | nil => rfl
      | cons a as => simp [List.isEmpty] at he
    subst hnil
    simp
  · rw [if_neg (by simp [he])]
    apply boolEqOfIff
    rw [readerableLoop_iff sq (options.getD ReaderableOptions.default) texts 0]
    rw [List.any_eq_true]
    constructor
    · rintro ⟨i, hi, hqi, hsc⟩
      refine ⟨i, List.mem_range.mpr hi, ?_⟩
      rw [Bool.and_eq_true, decide_eq_true_eq]
      rw [zero_add] at hsc
      exact ⟨hqi, hsc⟩
    · rintro ⟨i, hmem, hp⟩
      rw [Bool.and_eq_true, decide_eq_true_eq] at hp
      exact ⟨i, List.mem_range.mp hmem, hp.1, by rw [zero_add]; exact hp.2⟩

/-- **C3 counterexample** — one empty paragraph (`<p></p>`, trimmed text
length 0) with options `min_content_length = 0`, `min_score = -1.0`: the
element's length does not strictly exceed the threshold, so under the
claim's description the score is never touched and the scan must return
`false` ("no element qualifies"); the source, however, skips only
elements with `text_len < min_content_length`, so it adds
`sqrt(0 - 0) = 0` for this element, checks `0.0 > -1.0`, and returns
`true`. -/
theorem c3_counterexample :
    is_probably_readerable (fun n => (n : ℚ)) [emptyStr] (some ⟨0, -1⟩) = true ∧
      readerableSpecStrict (fun n => (n : ℚ)) [emptyStr] (some ⟨0, -1⟩) = false := by
  constructor
  · unfold is_probably_readerable
    rw [if_neg (by simp [emptyStr, List.isEmpty])]
    simp only [readerableLoop, Option.getD]
    rw [if_neg (by simp [emptyStr, trimL])]
    rw [if_pos (by norm_num [emptyStr, trimL])]
  · unfold readerableSpecStrict
    simp only [readerableScanStrict, Option.getD]
    rw [if_neg (by simp [emptyStr, trimL])]

/-! ## C10: the subtraction in `is_probably_readerable` cannot underflow -/

/-- Checked natural subtraction: `none` exactly when the subtraction would
underflow (model of `usize` subtraction with an explicit underflow
signal). -/
def checkedSub (a b : Nat) : Option Nat :=
  if b ≤ a then some (a - b) else none

/-- The readerable loop with the score subtraction replaced by
`checkedSub`, propagating a potential underflow as `none`. -/
def readerableLoopCk (sq : Nat → ℚ) (o : ReaderableOptions) : ℚ → List String → Option Bool
  | _, [] => some false
  | score, t :: rest =>
    let text_len := (trimL t.data).length
    if text_len < o.min_content_length then readerableLoopCk sq o score rest
    else
      match checkedSub text_len o.min_content_length with
      | none => none
      | some d =>
        let score2 := score + sq d
        if o.min_score < score2 then some true else readerableLoopCk sq o score2 rest

/-- `is_probably_readerable` with checked subtraction. -/
def is_probably_readerable_ck (sq : Nat → ℚ) (texts : List String)
    (options : Option ReaderableOptions) : Option Bool :=
  if texts.isEmpty then some false
  else readerableLoopCk sq (options.getD ReaderableOptions.default) 0 texts

theorem readerableLoopCk_eq (sq : Nat → ℚ) (o : ReaderableOptions) :
    ∀ (ts : List String) (s : ℚ),
      readerableLoopCk sq o s ts = some (readerableLoop sq o s ts) := by
  intro ts
  induction ts with
  | nil => intro s; rfl
  | cons t rest ih =>
    intro s
    simp only [readerableLoopCk, readerableLoop]
    by_cases hq : (trimL t.data).length < o.min_content_length
    · rw [if_pos hq, if_pos hq]
      exact ih s
    · rw [if_neg hq, if_neg hq]
      have hsub : checkedSub (trimL t.data).length o.min_content_length =
          some ((trimL t.data).length - o.min_content_length) := by
        unfold checkedSub
        rw [if_pos (Nat.le_of_not_lt hq)]
      simp only [hsub]
      by_cases hex : o.min_score < s + sq ((trimL t.data).length - o.min_content_length)
      · rw [if_pos hex, if_pos hex]
      · rw [if_neg hex, if_neg hex]
        exact ih _

/-- **C10** — the unsigned subtraction
`text_len - options.min_content_length` in `is_probably_readerable` is
only evaluated when the guard `text_len < min_content_length` has failed,
i.e. when `text_len ≥ min_content_length`, so it never underflows: the
checked-subtraction variant of the function never reports an underflow
and agrees with the unchecked model on every input. -/
theorem c10_no_underflow (sq : Nat → ℚ) (texts : List String)
    (options : Option ReaderableOptions) :
    is_probably_readerable_ck sq texts options =
      some (is_probably_readerable sq texts options) := by
  unfold is_probably_readerable_ck is_probably_readerable
  by_cases he : texts.isEmpty
  · rw [if_pos (by simp [he]), if_pos (by simp [he])]
  · rw [if_neg (by simp [he]), if_neg (by simp [he])]
    exact readerableLoopCk_eq sq _ texts 0

/-- **C8** — the quick readerable check is a pure function of its inputs:
two calls with equal markup (modelled by the parsed element texts) and
equal options return equal booleans.  In the Rust source the function
owns all state it touches (it parses its own `Html` value; the only
process-wide data are lazily compiled, thereafter read-only patterns), so
purity holds by construction and is captured by this embedding. -/
theorem c8_readerable_deterministic (sq : Nat → ℚ) (t1 t2 : List String)
    (o1 o2 : Option ReaderableOptions) (ht : t1 = t2) (ho : o1 = o2) :
    is_probably_readerable sq t1 o1 = is_probably_readerable sq t2 o2 := by
  rw [ht, ho]

/-- **C8 witness** — the determinism theorem applied at a concrete input. -/
theorem c8_readerable_deterministic_witness :
    is_probably_readerable (fun n => (n : ℚ)) ["abc"] none =
      is_probably_readerable (fun n => (n : ℚ)) ["abc"] none :=
  c8_readerable_deterministic (fun n => (n : ℚ)) ["abc"] ["abc"] none none rfl rfl

/-! ## `src/options.rs` — `ReadabilityOptions` and its builder

The `Regex` type of the `allowed_video_regex` field is modelled by its
pattern source text. -/

/-- Model of `ReadabilityOptions` from `src/options.rs`. -/
structure ReadabilityOptions where
  debug : Bool
  max_elems_to_parse : Nat
  nb_top_candidates : Nat
  char_threshold : Nat
  classes_to_preserve : List String
  keep_classes : Bool
  disable_json_ld : Bool
  allowed_video_regex : Option String
  link_density_modifier : ℚ

/-- The `Default` impl of `ReadabilityOptions` (source lines 36–50). -/
def ReadabilityOptions.default : ReadabilityOptions :=
  ⟨false, 0, 5, 500, ["page"], false, false, none, 0⟩

/-- Model of `ReadabilityOptionsBuilder` (every field optional, `None`
meaning "not set"); `derive(Default)` makes every field `None`. -/
structure ReadabilityOptionsBuilder where
  debug : Option Bool
  max_elems_to_parse : Option Nat
  nb_top_candidates : Option Nat
  char_threshold : Option Nat
  classes_to_preserve : Option (List String)
  keep_classes : Option Bool
  disable_json_ld : Option Bool
  allowed_video_regex : Option String
  link_density_modifier : Option ℚ

/-- `ReadabilityOptions::builder()`: the all-`None` default builder. -/
def ReadabilityOptions.builder : ReadabilityOptionsBuilder :=
  ⟨none, none, none, none, none, none, none, none, none⟩

/-- `ReadabilityOptionsBuilder::build`: every unset field falls back to the
corresponding `ReadabilityOptions::default()` value (`unwrap_or` for the
plain fields, `Option::or` for `allowed_video_regex`). -/
def ReadabilityOptionsBuilder.build (b : ReadabilityOptionsBuilder) : ReadabilityOptions :=
  ⟨b.debug.getD ReadabilityOptions.default.debug,
   b.max_elems_to_parse.getD ReadabilityOptions.default.max_elems_to_parse,
   b.nb_top_candidates.getD ReadabilityOptions.default.nb_top_candidates,
   b.char_threshold.getD ReadabilityOptions.default.char_threshold,
   b.classes_to_preserve.getD ReadabilityOptions.default.classes_to_preserve,
   b.keep_classes.getD ReadabilityOptions.default.keep_classes,
   b.disable_json_ld.getD ReadabilityOptions.default.disable_json_ld,
   b.allowed_video_regex.or ReadabilityOptions.default.allowed_video_regex,
   b.link_density_modifier.getD ReadabilityOptions.default.link_density_modifier⟩

/-- Modelled from the spec: the built-in common video host whitelist
pattern that serves as the effective default for `allowed_video_regex`
(spec §6).  The constants module holding the literal pattern text is not
among the provided sources; this pattern text stands in for it. -/
def builtinVideoPattern : String :=
  "//(www\\.)?((dailymotion|youtube|youtube-nocookie|player\\.vimeo|v\\.qq)\\.com|(archive|upload\\.wikimedia)\\.org|player\\.twitch\\.tv)"

/-- Modelled from the spec: the video whitelist regex actually applied
during cleaning is the configured `allowed_video_regex` when present and
the built-in pattern otherwise (spec §6: "default: built-in common video
host pattern"); the consuming cleaning code is not among the provided
sources. -/
def effectiveAllowedVideoRegex (o : ReadabilityOptions) : String :=
  o.allowed_video_regex.getD builtinVideoPattern

/-- **C7** — the default configuration: `max_elems_to_parse = 0`
(unbounded), `nb_top_candidates = 5`, `char_threshold = 500`,
`classes_to_preserve = ["page"]`, `keep_classes = false`,
`disable_json_ld = false`, `link_density_modifier = 0.0`; the
`allowed_video_regex` field itself defaults to `None`, which stands for
the built-in common video host pattern at its point of use; and
`builder()` followed by `build()` with no fields set produces exactly
`ReadabilityOptions::default()`. -/
theorem c7_default_configuration :
    ReadabilityOptions.default.max_elems_to_parse = 0 ∧
    ReadabilityOptions.default.nb_top_candidates = 5 ∧
    ReadabilityOptions.default.char_threshold = 500 ∧
    ReadabilityOptions.default.classes_to_preserve = ["page"] ∧
    ReadabilityOptions.default.keep_classes = false ∧
    ReadabilityOptions.default.disable_json_ld = false ∧
    ReadabilityOptions.default.link_density_modifier = 0 ∧
    ReadabilityOptions.default.allowed_video_regex = none ∧
    effectiveAllowedVideoRegex ReadabilityOptions.default = builtinVideoPattern ∧
    ReadabilityOptions.builder.build = ReadabilityOptions.default :=
  ⟨rfl, rfl, rfl, rfl, rfl, rfl, rfl, rfl, rfl, rfl⟩
